/-
Verification of the grid-indexing + segmentation + exclusion-alignment +
defect-detection core of the vision-inspection repository.

The Python source (src/indexing_ui.py, src/segmentation.py) is shallowly
embedded below: images / masks are lists of rows of natural-number pixel
values, coordinates are integers, and each OpenCV primitive used by the
code is modelled by its documented pixel-level semantics.
-/
import Mathlib

namespace VisionInspect

/-! ## Masks / 2D uint8 arrays

A numpy 2D uint8 array is modelled as a list of rows of `Nat` pixel values.
`pix m y x` reads pixel (row `y`, column `x`), defaulting to 0 out of
bounds (numpy arrays are rectangular, so in-bounds reads never hit the
default). -/

/-- 2D image / mask: list of rows of pixel values. -/
abbrev Mask : Type := List (List Nat)

/-- Number of rows (`mask.shape[0]`). -/
def maskH (m : Mask) : Nat := m.length

/-- Number of columns (`mask.shape[1]`, read off the first row). -/
def maskW (m : Mask) : Nat := (m.headD []).length

/-- Pixel value at row `y`, column `x` (0 outside the stored data). -/
def pix (m : Mask) (y x : Nat) : Nat := (m.getD y []).getD x 0

/-- Rectangular image of height `h`, width `w` built from a pixel function;
used to model OpenCV operations that produce a same-shape output. -/
def mapGrid (h w : Nat) (f : Nat → Nat → Nat) : Mask :=
  (List.range h).map fun y => (List.range w).map fun x => f y x

theorem length_mapGrid (h w : Nat) (f : Nat → Nat → Nat) :
    (mapGrid h w f).length = h := by
  simp [mapGrid]

theorem mem_mapGrid_length (h w : Nat) (f : Nat → Nat → Nat) :
    ∀ row ∈ mapGrid h w f, row.length = w := by
  intro row hrow
  simp only [mapGrid, List.mem_map] at hrow
  obtain ⟨y, _, rfl⟩ := hrow
  simp

theorem pix_mapGrid (h w : Nat) (f : Nat → Nat → Nat) (y x : Nat)
    (hy : y < h) (hx : x < w) : pix (mapGrid h w f) y x = f y x := by
  simp [pix, mapGrid, List.getD_eq_getElem?_getD, List.getElem?_map,
    List.getElem?_range, hy, hx]

theorem maskH_mapGrid (h w : Nat) (f : Nat → Nat → Nat) :
    maskH (mapGrid h w f) = h := length_mapGrid h w f

theorem maskW_mapGrid (h w : Nat) (f : Nat → Nat → Nat) (hh : 0 < h) :
    maskW (mapGrid h w f) = w := by
  unfold maskW mapGrid
  obtain ⟨h', rfl⟩ := Nat.exists_eq_add_of_lt hh
  simp [List.range_succ_eq_map]

/-! ## GridModel — `MainWindow.update_grid_preview`

Python (src/indexing_ui.py:2182-2191):
```
grid = []
idx = 0
for byi in range(by):
  for uyi in range(uy):
    for bxi in range(bx):
      for uxi in range(ux):
        x = r.x() + bxi * (ux*unit_w + (ux-1)*sux + sbx) + uxi * (unit_w + sux)
        y = r.y() + byi * (uy*unit_h + (uy-1)*suy + sby) + uyi * (unit_h + suy)
        grid.append(((int(x), int(y), int(unit_w), int(unit_h)), idx))
        idx += 1
```
The nested loops are embedded as flat-mapped ranges; since `idx` is
incremented once per appended element, the stored index equals the list
position, embedded via `List.enum`. -/

/-- `(List.range n).flatMap f`: the body of one Python `for i in range(n)` loop. -/
def flatRange (n : Nat) (f : Nat → List α) : List α :=
  (List.range n).flatMap f

theorem flatRange_succ (n : Nat) (f : Nat → List α) :
    flatRange (n + 1) f = flatRange n f ++ f n := by
  simp [flatRange, List.range_succ]

theorem flatRange_length (n m : Nat) (f : Nat → List α)
    (hf : ∀ i, (f i).length = m) : (flatRange n f).length = n * m := by
  induction n with
  | zero => simp [flatRange]
  | succ k ih => simp [flatRange_succ, ih, hf, Nat.succ_mul]

theorem idx_lt_mul {i j n m : Nat} (hi : i < n) (hj : j < m) :
    i * m + j < n * m := by
  calc i * m + j < i * m + m := by omega
    _ = (i + 1) * m := by ring
    _ ≤ n * m := Nat.mul_le_mul_right m hi

theorem flatRange_getElem? (n m : Nat) (f : Nat → List α)
    (hf : ∀ i, (f i).length = m) (i j : Nat) (hi : i < n) (hj : j < m) :
    (flatRange n f)[i * m + j]? = (f i)[j]? := by
  induction n with
  | zero => omega
  | succ k ih =>
    rw [flatRange_succ]
    rcases Nat.lt_or_ge i k with hik | hik
    · rw [List.getElem?_append_left (by rw [flatRange_length k m f hf]; exact idx_lt_mul hik hj)]
      exact ih hik
    · have hik' : i = k := by omega
      subst hik'
      rw [List.getElem?_append_right (by rw [flatRange_length i m f hf]; omega)]
      rw [flatRange_length i m f hf]
      congr 1
      omega

/-- One generated rectangle `(x, y, w, h)` in image coordinates. -/
abbrev GridRect : Type := Int × Int × Int × Int

/-- The four nested loops of `update_grid_preview`, producing the
rectangles in strict iteration order (block-row, unit-row, block-col,
unit-col, outermost to innermost). -/
def gridRects (rx ry uw uh : Int) (ux uy bx bny : Nat)
    (sux suy sbx sby : Int) : List GridRect :=
  flatRange bny fun byi =>
    flatRange uy fun uyi =>
      flatRange bx fun bxi =>
        (List.range ux).map fun (uxi : Nat) =>
          (rx + (bxi : Int) * ((ux : Int) * uw + ((ux : Int) - 1) * sux + sbx)
             + (uxi : Int) * (uw + sux),
           ry + (byi : Int) * ((uy : Int) * uh + ((uy : Int) - 1) * suy + sby)
             + (uyi : Int) * (uh + suy),
           uw, uh)

/-- `update_grid_preview`: rectangles paired with their running index
(`idx` is incremented once per append, so it equals the list position). -/
def update_grid_preview (rx ry uw uh : Int) (ux uy bx bny : Nat)
    (sux suy sbx sby : Int) : List (GridRect × Nat) :=
  (gridRects rx ry uw uh ux uy bx bny sux suy sbx sby).enum.map
    fun p => (p.2, p.1)

theorem length_gridRects (rx ry uw uh : Int) (ux uy bx bny : Nat)
    (sux suy sbx sby : Int) :
    (gridRects rx ry uw uh ux uy bx bny sux suy sbx sby).length
      = bny * (uy * (bx * ux)) := by
  unfold gridRects
  apply flatRange_length
  intro byi
  apply flatRange_length
  intro uyi
  apply flatRange_length
  intro bxi
  rw [List.length_map, List.length_range]

theorem gridRects_getElem? (rx ry uw uh : Int) (ux uy bx bny : Nat)
    (sux suy sbx sby : Int) (byi uyi bxi uxi : Nat)
    (hby : byi < bny) (huy : uyi < uy) (hbx : bxi < bx) (hux : uxi < ux) :
    (gridRects rx ry uw uh ux uy bx bny sux suy sbx sby)[((byi * uy + uyi) * bx + bxi) * ux + uxi]?
      = some (rx + (bxi : Int) * ((ux : Int) * uw + ((ux : Int) - 1) * sux + sbx)
                 + (uxi : Int) * (uw + sux),
              ry + (byi : Int) * ((uy : Int) * uh + ((uy : Int) - 1) * suy + sby)
                 + (uyi : Int) * (uh + suy),
              uw, uh) := by
  have hidx : ((byi * uy + uyi) * bx + bxi) * ux + uxi
      = byi * (uy * (bx * ux)) + (uyi * (bx * ux) + (bxi * ux + uxi)) := by ring
  unfold gridRects
  rw [hidx]
  rw [flatRange_getElem? bny (uy * (bx * ux)) _
    (fun i => by
      apply flatRange_length
      intro uyi
      apply flatRange_length
      intro bxi
      rw [List.length_map, List.length_range])
    byi _ hby
    (by
      have h1 : bxi * ux + uxi < bx * ux := idx_lt_mul hbx hux
      exact idx_lt_mul huy h1)]
  rw [flatRange_getElem? uy (bx * ux) _
    (fun i => by
      apply flatRange_length
      intro bxi
      rw [List.length_map, List.length_range])
    uyi _ huy (idx_lt_mul hbx hux)]
  rw [flatRange_getElem? bx ux _ (fun i => by rw [List.length_map, List.length_range]) bxi _ hbx hux]
  rw [List.getElem?_map, List.getElem?_range hux]
  rfl

/-- C1: grid enumeration follows the four nested counters (block-row,
unit-row, block-col, unit-col, outermost to innermost), the index equals
the strict iteration order, placement follows the stated x/y formulas, and
Scenario A yields exactly the two stated units. -/
theorem grid_iteration_order_and_placement :
    (∀ (rx ry uw uh sux suy sbx sby : Int) (ux uy bx bny byi uyi bxi uxi : Nat),
      byi < bny → uyi < uy → bxi < bx → uxi < ux →
      (update_grid_preview rx ry uw uh ux uy bx bny sux suy sbx sby)[((byi * uy + uyi) * bx + bxi) * ux + uxi]?
        = some ((rx + (bxi : Int) * ((ux : Int) * uw + ((ux : Int) - 1) * sux + sbx)
                    + (uxi : Int) * (uw + sux),
                 ry + (byi : Int) * ((uy : Int) * uh + ((uy : Int) - 1) * suy + sby)
                    + (uyi : Int) * (uh + suy),
                 uw, uh),
                ((byi * uy + uyi) * bx + bxi) * ux + uxi))
    ∧ update_grid_preview 10 10 100 80 2 1 1 1 0 0 0 0
        = [((10, 10, 100, 80), 0), ((110, 10, 100, 80), 1)] := by
  constructor
  · intro rx ry uw uh sux suy sbx sby ux uy bx bny byi uyi bxi uxi hby huy hbx hux
    unfold update_grid_preview
    rw [List.getElem?_map, List.getElem?_enum,
      gridRects_getElem? rx ry uw uh ux uy bx bny sux suy sbx sby byi uyi bxi uxi hby huy hbx hux]
    rfl
  · decide

/-- Witness for C1: the second unit of Scenario A, at iteration position 1,
is (110, 10, 100, 80) with index 1. -/
theorem grid_iteration_order_and_placement_witness :
    (update_grid_preview 10 10 100 80 2 1 1 1 0 0 0 0)[((0 * 1 + 0) * 1 + 0) * 2 + 1]?
      = some ((10 + ((0 : Nat) : Int) * ((2 : Int) * 100 + ((2 : Int) - 1) * 0 + 0)
                  + ((1 : Nat) : Int) * (100 + 0),
               10 + ((0 : Nat) : Int) * ((1 : Int) * 80 + ((1 : Int) - 1) * 0 + 0)
                  + ((0 : Nat) : Int) * (80 + 0),
               100, 80), ((0 * 1 + 0) * 1 + 0) * 2 + 1) :=
  grid_iteration_order_and_placement.1 10 10 100 80 0 0 0 0 2 1 1 1 0 0 0 1
    (by decide) (by decide) (by decide) (by decide)

/-- C2: the grid always contains exactly `units_x*units_y*blocks_x*blocks_y`
rectangles, and is the empty sequence when any factor is zero. -/
theorem grid_cardinality :
    ∀ (rx ry uw uh sux suy sbx sby : Int) (ux uy bx bny : Nat),
      (update_grid_preview rx ry uw uh ux uy bx bny sux suy sbx sby).length
          = ux * uy * bx * bny
      ∧ (ux = 0 ∨ uy = 0 ∨ bx = 0 ∨ bny = 0 →
          update_grid_preview rx ry uw uh ux uy bx bny sux suy sbx sby = []) := by
  intro rx ry uw uh sux suy sbx sby ux uy bx bny
  have hlen : (update_grid_preview rx ry uw uh ux uy bx bny sux suy sbx sby).length
      = ux * uy * bx * bny := by
    unfold update_grid_preview
    rw [List.length_map, List.enum_length, length_gridRects]
    ring
  refine ⟨hlen, fun h0 => ?_⟩
  have : (update_grid_preview rx ry uw uh ux uy bx bny sux suy sbx sby).length = 0 := by
    rw [hlen]
    rcases h0 with h | h | h | h <;> simp [h]
  exact List.length_eq_zero.mp this

/-- Witness for C2: with `units_x = 0` the grid is empty. -/
theorem grid_cardinality_witness :
    (update_grid_preview 10 10 100 80 0 3 2 2 1 1 1 1).length = 0 * 3 * 2 * 2
    ∧ update_grid_preview 10 10 100 80 0 3 2 2 1 1 1 1 = [] :=
  ⟨(grid_cardinality 10 10 100 80 1 1 1 1 0 3 2 2).1,
   (grid_cardinality 10 10 100 80 1 1 1 1 0 3 2 2).2 (Or.inl rfl)⟩

/-! ## fill_internal_holes — src/segmentation.py:27-72

The code binarizes the mask, inverts it, flood-fills (4-connectivity,
OpenCV default) from every background border pixel, and ORs the unfilled
remainder (the internal holes) back onto the mask.  The net pixel-level
semantics: an output pixel is 0 exactly when it is background in the
binarized input AND 4-connected through background pixels to a background
border pixel; every other pixel is 255.  Flood reachability is embedded as
a fuel-bounded closure (`h*w` steps saturate, every step only grows the
set). -/

/-- `(mask > 0).astype(np.uint8) * 255`. -/
def binarize (m : Mask) : Mask :=
  m.map fun row => row.map fun v => if 0 < v then 255 else 0

/-- 4-connectivity between pixels `(y, x)` (the default connectivity of
`cv2.floodFill`). -/
def adj4 (p q : Nat × Nat) : Prop :=
  (p.1 = q.1 ∧ (p.2 + 1 = q.2 ∨ q.2 + 1 = p.2)) ∨
  (p.2 = q.2 ∧ (p.1 + 1 = q.1 ∨ q.1 + 1 = p.1))

instance (p q : Nat × Nat) : Decidable (adj4 p q) := by
  unfold adj4
  infer_instance

/-- Pixels of the `h × w` grid whose value is 0 (background). -/
def zeroSet (b : Mask) (h w : Nat) : Finset (Nat × Nat) :=
  (Finset.range h ×ˢ Finset.range w).filter fun p => pix b p.1 p.2 = 0

/-- Background pixels on the raster border: the flood-fill seeds. -/
def borderZero (b : Mask) (h w : Nat) : Finset (Nat × Nat) :=
  (zeroSet b h w).filter fun p => p.1 = 0 ∨ p.1 = h - 1 ∨ p.2 = 0 ∨ p.2 = w - 1

/-- One flood step: add every background pixel adjacent to the current set. -/
def stepReach (b : Mask) (h w : Nat) (s : Finset (Nat × Nat)) : Finset (Nat × Nat) :=
  s ∪ (zeroSet b h w).filter fun q => ∃ p ∈ s, adj4 p q

/-- Background pixels reachable from the border through background pixels:
the region emptied by the border flood fills. -/
def reach (b : Mask) (h w : Nat) : Finset (Nat × Nat) :=
  (stepReach b h w)^[h * w] (borderZero b h w)

/-- `fill_internal_holes`: output pixel is 255 iff it is foreground or an
unreachable (internal) background pixel. -/
def fill_internal_holes (m : Mask) : Mask :=
  if maskH (binarize m) = 0 ∨ maskW (binarize m) = 0 then binarize m
  else
    mapGrid (maskH (binarize m)) (maskW (binarize m)) fun y x =>
      if pix (binarize m) y x = 255 then 255
      else if (y, x) ∈ reach (binarize m) (maskH (binarize m)) (maskW (binarize m))
        then 0 else 255

theorem getD_map_nil (m : List (List Nat)) (g : List Nat → List Nat)
    (hg : g [] = []) (y : Nat) : (m.map g).getD y [] = g (m.getD y []) := by
  rw [List.getD_eq_getElem?_getD, List.getElem?_map, List.getD_eq_getElem?_getD]
  cases hm : m[y]? with
  | none => simp [hg]
  | some row => simp

theorem getD_map_zero (row : List Nat) (f : Nat → Nat) (hf : f 0 = 0) (x : Nat) :
    (row.map f).getD x 0 = f (row.getD x 0) := by
  rw [List.getD_eq_getElem?_getD, List.getElem?_map, List.getD_eq_getElem?_getD]
  cases hr : row[x]? with
  | none => simp [hf]
  | some v => simp

theorem pix_binarize (m : Mask) (y x : Nat) :
    pix (binarize m) y x = if 0 < pix m y x then 255 else 0 := by
  unfold pix binarize
  rw [getD_map_nil _ _ rfl, getD_map_zero _ _ rfl]

theorem maskH_binarize (m : Mask) : maskH (binarize m) = maskH m := by
  simp [maskH, binarize]

theorem maskW_binarize (m : Mask) : maskW (binarize m) = maskW m := by
  unfold maskW binarize
  cases m with
  | nil => rfl
  | cons r t => simp

theorem binarize_binarize (m : Mask) : binarize (binarize m) = binarize m := by
  unfold binarize
  rw [List.map_map]
  apply List.map_congr_left
  intro row _
  simp only [Function.comp]
  rw [List.map_map]
  apply List.map_congr_left
  intro v _
  simp only [Function.comp]
  split_ifs <;> simp_all

theorem mem_zeroSet {b : Mask} {h w : Nat} {p : Nat × Nat} :
    p ∈ zeroSet b h w ↔ (p.1 < h ∧ p.2 < w) ∧ pix b p.1 p.2 = 0 := by
  simp [zeroSet, Finset.mem_filter, Finset.mem_product, Finset.mem_range, and_assoc]

theorem subset_stepReach (b : Mask) (h w : Nat) (s : Finset (Nat × Nat)) :
    s ⊆ stepReach b h w s :=
  Finset.subset_union_left

theorem mem_stepReach {b : Mask} {h w : Nat} {s : Finset (Nat × Nat)} {q : Nat × Nat} :
    q ∈ stepReach b h w s ↔ q ∈ s ∨ (q ∈ zeroSet b h w ∧ ∃ p ∈ s, adj4 p q) := by
  simp [stepReach, Finset.mem_union, Finset.mem_filter]

theorem subset_iterate_of_le {α : Type} {f : Finset α → Finset α}
    (hf : ∀ t, t ⊆ f t) (s : Finset α) {j k : Nat} (hjk : j ≤ k) :
    f^[j] s ⊆ f^[k] s := by
  induction k with
  | zero =>
    have : j = 0 := by omega
    subst this
    exact fun a ha => ha
  | succ n ih =>
    rcases Nat.lt_or_ge j (n + 1) with hj | hj
    · have h1 : f^[j] s ⊆ f^[n] s := ih (by omega)
      rw [Function.iterate_succ_apply']
      exact h1.trans (hf _)
    · have : j = n + 1 := by omega
      subst this
      exact fun a ha => ha

theorem iterate_reach_zero (b : Mask) (h w : Nat) (k : Nat) :
    (stepReach b h w)^[k] (borderZero b h w) ⊆ zeroSet b h w := by
  induction k with
  | zero => exact Finset.filter_subset _ _
  | succ n ih =>
    rw [Function.iterate_succ_apply']
    intro p hp
    rcases mem_stepReach.mp hp with hp | ⟨hp, _⟩
    · exact ih hp
    · exact hp

theorem reach_subset_zeroSet (b : Mask) (h w : Nat) :
    reach b h w ⊆ zeroSet b h w :=
  iterate_reach_zero b h w (h * w)

theorem borderZero_subset_reach (b : Mask) (h w : Nat) :
    borderZero b h w ⊆ reach b h w :=
  subset_iterate_of_le (subset_stepReach b h w) _ (Nat.zero_le _)

/-- Key comparison: if every pixel flood-reachable in `b` is background in
`B` as well as in `b` and both masks agree on bounds, the flood of `B`
covers the flood of `b`, step by step. -/
theorem iterate_reach_mono (b B : Mask) (h w : Nat)
    (hzero : ∀ p ∈ reach b h w, p ∈ zeroSet B h w) :
    ∀ k, k ≤ h * w →
      (stepReach b h w)^[k] (borderZero b h w)
        ⊆ (stepReach B h w)^[k] (borderZero B h w) := by
  intro k
  induction k with
  | zero =>
    intro _ p hp
    have hpr : p ∈ reach b h w := borderZero_subset_reach b h w hp
    have hz : p ∈ zeroSet B h w := hzero p hpr
    have hb : p.1 = 0 ∨ p.1 = h - 1 ∨ p.2 = 0 ∨ p.2 = w - 1 :=
      (Finset.mem_filter.mp hp).2
    exact Finset.mem_filter.mpr ⟨hz, hb⟩
  | succ n ih =>
    intro hk p hp
    rw [Function.iterate_succ_apply'] at hp ⊢
    rcases mem_stepReach.mp hp with hp | ⟨_, q, hq, hadj⟩
    · exact subset_stepReach B h w _ (ih (by omega) hp)
    · have hpr : p ∈ reach b h w := by
        apply subset_iterate_of_le (subset_stepReach b h w) _ hk
        rw [Function.iterate_succ_apply']
        exact hp
      exact mem_stepReach.mpr
        (Or.inr ⟨hzero p hpr, q, ih (by omega) hq, hadj⟩)

theorem reach_mono (b B : Mask) (h w : Nat)
    (hzero : ∀ p ∈ reach b h w, p ∈ zeroSet B h w) :
    reach b h w ⊆ reach B h w :=
  iterate_reach_mono b B h w hzero (h * w) (Nat.le_refl _)

theorem mapGrid_congr {h w : Nat} {f g : Nat → Nat → Nat}
    (hfg : ∀ y < h, ∀ x < w, f y x = g y x) : mapGrid h w f = mapGrid h w g := by
  unfold mapGrid
  apply List.map_congr_left
  intro y hy
  apply List.map_congr_left
  intro x hx
  exact hfg y (List.mem_range.mp hy) x (List.mem_range.mp hx)

theorem binarize_mapGrid (h w : Nat) (f : Nat → Nat → Nat) :
    binarize (mapGrid h w f)
      = mapGrid h w fun y x => if 0 < f y x then 255 else 0 := by
  unfold binarize mapGrid
  rw [List.map_map]
  apply List.map_congr_left
  intro y _
  simp [Function.comp, List.map_map]

theorem binarize_fill (m : Mask) :
    binarize (fill_internal_holes m) = fill_internal_holes m := by
  unfold fill_internal_holes
  split_ifs with hdeg
  · exact binarize_binarize m
  · rw [binarize_mapGrid]
    apply mapGrid_congr
    intro y _ x _
    split_ifs <;> simp_all

theorem length_fill (m : Mask) :
    (fill_internal_holes m).length = m.length := by
  unfold fill_internal_holes
  split_ifs with hdeg
  · simp [binarize]
  · rw [length_mapGrid, maskH_binarize]
    rfl

theorem maskH_fill (m : Mask) : maskH (fill_internal_holes m) = maskH m :=
  length_fill m

theorem maskW_fill (m : Mask) : maskW (fill_internal_holes m) = maskW m := by
  unfold fill_internal_holes
  split_ifs with hdeg
  · exact maskW_binarize m
  · rw [maskW_mapGrid _ _ _ (Nat.pos_of_ne_zero fun h0 => hdeg (Or.inl h0)),
      maskW_binarize]

theorem pix_fill (m : Mask) (hdeg : ¬(maskH m = 0 ∨ maskW m = 0)) (y x : Nat)
    (hy : y < maskH m) (hx : x < maskW m) :
    pix (fill_internal_holes m) y x
      = if pix (binarize m) y x = 255 then 255
        else if (y, x) ∈ reach (binarize m) (maskH m) (maskW m) then 0 else 255 := by
  unfold fill_internal_holes
  rw [if_neg (by rw [maskH_binarize, maskW_binarize]; exact hdeg)]
  rw [maskH_binarize, maskW_binarize]
  exact pix_mapGrid _ _ _ y x hy hx

/-- C4: hole filling is idempotent. -/
theorem fill_internal_holes_idempotent (m : Mask) :
    fill_internal_holes (fill_internal_holes m) = fill_internal_holes m := by
  by_cases hdeg : maskH m = 0 ∨ maskW m = 0
  · have hdeg' : maskH (binarize m) = 0 ∨ maskW (binarize m) = 0 := by
      rw [maskH_binarize, maskW_binarize]
      exact hdeg
    have hF : fill_internal_holes m = binarize m := by
      unfold fill_internal_holes
      rw [if_pos hdeg']
    rw [hF]
    unfold fill_internal_holes
    rw [binarize_binarize, if_pos hdeg']
  · set F := fill_internal_holes m with hFdef
    have hbF : binarize F = F := binarize_fill m
    have hHF : maskH F = maskH m := maskH_fill m
    have hWF : maskW F = maskW m := maskW_fill m
    have hdeg2 : ¬(maskH (binarize F) = 0 ∨ maskW (binarize F) = 0) := by
      rw [hbF, hHF, hWF]
      exact hdeg
    -- the reach of the binarized input is contained in the reach of F
    have hzero : ∀ p ∈ reach (binarize m) (maskH m) (maskW m),
        p ∈ zeroSet F (maskH m) (maskW m) := by
      intro p hp
      have hz := reach_subset_zeroSet (binarize m) (maskH m) (maskW m) hp
      rcases mem_zeroSet.mp hz with ⟨⟨hp1, hp2⟩, hpix⟩
      refine mem_zeroSet.mpr ⟨⟨hp1, hp2⟩, ?_⟩
      rw [hFdef, pix_fill m hdeg p.1 p.2 hp1 hp2, hpix]
      simp [hp]
    have hreach : reach (binarize m) (maskH m) (maskW m)
        ⊆ reach F (maskH m) (maskW m) :=
      reach_mono _ _ _ _ hzero
    -- unfold the outer application
    conv_lhs => unfold fill_internal_holes
    rw [if_neg hdeg2, hbF, hHF, hWF]
    -- both sides are h×w grids; compare pointwise
    conv_rhs =>
      rw [hFdef]
      unfold fill_internal_holes
      rw [if_neg (by rw [maskH_binarize, maskW_binarize]; exact hdeg),
        maskH_binarize, maskW_binarize]
    apply mapGrid_congr
    intro y hy x hx
    have hpF : pix F y x
        = if pix (binarize m) y x = 255 then 255
          else if (y, x) ∈ reach (binarize m) (maskH m) (maskW m) then 0 else 255 :=
      pix_fill m hdeg y x hy hx
    by_cases h255 : pix (binarize m) y x = 255
    · rw [if_pos h255, hpF, if_pos h255, if_pos rfl]
    · rw [if_neg h255, hpF, if_neg h255]
      by_cases hr : (y, x) ∈ reach (binarize m) (maskH m) (maskW m)
      · rw [if_pos hr, if_neg (by omega), if_pos (hreach hr)]
      · rw [if_neg hr, if_pos rfl]

/-! ## segment_cell — src/segmentation.py:75-100

The OpenCV primitives are modelled at pixel level.  Blur and the adaptive
local mean are modelled as plain means over the clipped square window (the
exact Gaussian weights live inside OpenCV; none of the verified properties
depend on them — they only depend on the operations being shape-preserving
pointwise-neighborhood filters).  Otsu's threshold is the argmax of the
between-class variance, computed exactly over ℚ. -/

/-- Values of the square window of size `k` (Chebyshev radius `k/2`)
around `(y, x)`, clipped to the `h × w` raster. -/
def windowPixels (m : Mask) (h w k y x : Nat) : List Nat :=
  (List.range h).flatMap fun yy =>
    (List.range w).filterMap fun xx =>
      if yy ≤ y + k / 2 ∧ y ≤ yy + k / 2 ∧ xx ≤ x + k / 2 ∧ x ≤ xx + k / 2
        then some (pix m yy xx) else none

/-- Model of `cv2.GaussianBlur(img, (k,k), 0)`: shape-preserving local
smoothing, taken as the integer mean of the clipped window. -/
def gaussianBlur (k : Nat) (m : Mask) : Mask :=
  mapGrid (maskH m) (maskW m) fun y x =>
    (windowPixels m (maskH m) (maskW m) k y x).sum
      / max 1 (windowPixels m (maskH m) (maskW m) k y x).length

/-- Number of pixels with value at most `t`. -/
def countLe (m : Mask) (t : Nat) : Nat := ((m.flatten).filter (· ≤ t)).length

/-- Sum of pixel values at most `t`. -/
def sumLe (m : Mask) (t : Nat) : Nat := ((m.flatten).filter (· ≤ t)).sum

/-- Between-class variance of a candidate Otsu threshold `t`, as an exact
rational (zero when one class is empty). -/
def otsuScore (m : Mask) (t : Nat) : ℚ :=
  let w0 := countLe m t
  let w1 := m.flatten.length - w0
  let s0 := sumLe m t
  let s1 := m.flatten.sum - s0
  if w0 = 0 ∨ w1 = 0 then 0
  else (((s0 * w1 : Int) - (s1 * w0 : Int)) ^ 2 : ℚ) / ((w0 : ℚ) * (w1 : ℚ))

/-- Otsu's threshold: the grey level in [0,255] maximising the
between-class variance (first maximum). -/
def otsuThreshold (m : Mask) : Nat :=
  (List.range 256).foldl
    (fun best t => if otsuScore m best < otsuScore m t then t else best) 0

/-- `cv2.threshold(img, 0, 255, THRESH_BINARY_INV + THRESH_OTSU)`: pixels
at or below the automatic threshold become 255, the rest 0. -/
def thresholdOtsuInv (m : Mask) : Mask :=
  mapGrid (maskH m) (maskW m) fun y x =>
    if pix m y x ≤ otsuThreshold m then 255 else 0

/-- `cv2.adaptiveThreshold(img, 255, ADAPTIVE_THRESH_GAUSSIAN_C,
THRESH_BINARY_INV, bs, C)`: a pixel becomes 0 when it exceeds the local
mean minus `C`, else 255 (local weighted mean modelled as the clipped
window's plain mean). -/
def adaptiveThresholdInv (bs : Nat) (c : Int) (m : Mask) : Mask :=
  mapGrid (maskH m) (maskW m) fun y x =>
    if (pix m y x : ℚ)
        > ((windowPixels m (maskH m) (maskW m) bs y x).sum : ℚ)
            / (max 1 (windowPixels m (maskH m) (maskW m) bs y x).length : ℚ)
          - (c : ℚ)
      then 0 else 255

/-- Cell `(i, j)` of the `k×k` elliptical structuring element
(`cv2.getStructuringElement(MORPH_ELLIPSE, (k,k))`), modelled as the
inscribed disc around the center anchor. -/
def ellKernelMem (k i j : Nat) : Prop :=
  ((i : Int) - (k / 2 : Nat)) ^ 2 + ((j : Int) - (k / 2 : Nat)) ^ 2
    ≤ ((k / 2 : Nat) : Int) ^ 2

instance (k i j : Nat) : Decidable (ellKernelMem k i j) := by
  unfold ellKernelMem
  infer_instance

/-- In-bounds neighborhood values sampled by the `k×k` elliptical kernel
anchored at its center over pixel `(y, x)`. -/
def kernelSamples (m : Mask) (k y x : Nat) : List Nat :=
  (List.range k).flatMap fun (i : Nat) =>
    (List.range k).filterMap fun (j : Nat) =>
      let yy : Int := (y : Int) + (i : Int) - (k / 2 : Nat)
      let xx : Int := (x : Int) + (j : Int) - (k / 2 : Nat)
      if ellKernelMem k i j ∧ 0 ≤ yy ∧ yy < (maskH m : Int)
          ∧ 0 ≤ xx ∧ xx < (maskW m : Int)
        then some (pix m yy.toNat xx.toNat) else none

/-- `cv2.dilate` with the elliptical kernel: neighborhood maximum
(out-of-bounds samples contribute the type minimum 0). -/
def dilate (k : Nat) (m : Mask) : Mask :=
  mapGrid (maskH m) (maskW m) fun y x => (kernelSamples m k y x).foldl max 0

/-- `cv2.erode` with the elliptical kernel: neighborhood minimum
(out-of-bounds samples contribute the uint8 maximum 255, so the border
does not erode — cv2's padding convention). -/
def erode (k : Nat) (m : Mask) : Mask :=
  mapGrid (maskH m) (maskW m) fun y x => (kernelSamples m k y x).foldl min 255

/-- `cv2.morphologyEx(mask, MORPH_CLOSE, kernel)`. -/
def morphClose (k : Nat) (m : Mask) : Mask := erode k (dilate k m)

/-- `cv2.morphologyEx(mask, MORPH_OPEN, kernel)`. -/
def morphOpen (k : Nat) (m : Mask) : Mask := dilate k (erode k m)

/-- Blur stage of `segment_cell`: blur only when `gaussian_blur > 0`,
forcing the kernel size odd (even sizes are incremented). -/
def segBlurStage (gaussian_blur : Nat) (gray : Mask) : Mask :=
  if 0 < gaussian_blur then
    gaussianBlur
      (if gaussian_blur % 2 = 1 then gaussian_blur else gaussian_blur + 1) gray
  else gray

/-- Threshold stage of `segment_cell`: Otsu, adaptive (block size forced
odd and at least 3), or Otsu for any other method string. -/
def segThreshStage (method : String) (adapt_block : Nat) (adapt_C : Int)
    (img : Mask) : Mask :=
  if method = "otsu" then thresholdOtsuInv img
  else if method = "adaptive" then
    adaptiveThresholdInv (max 3 (adapt_block ||| 1)) adapt_C img
  else thresholdOtsuInv img

/-- Morphology stage of `segment_cell`: close then open with the
elliptical kernel, only when `morph_kernel > 0`. -/
def segMorphStage (morph_kernel : Nat) (mask : Mask) : Mask :=
  if 0 < morph_kernel then
    morphOpen (max 1 morph_kernel) (morphClose (max 1 morph_kernel) mask)
  else mask

/-- `segment_cell(gray, method, adapt_block, adapt_C, gaussian_blur,
morph_kernel)`: optional blur, inverse threshold, optional
close-then-open morphology, then hole filling. -/
def segment_cell (gray : Mask) (method : String) (adapt_block : Nat)
    (adapt_C : Int) (gaussian_blur : Nat) (morph_kernel : Nat) : Mask :=
  fill_internal_holes
    (segMorphStage morph_kernel
      (segThreshStage method adapt_block adapt_C (segBlurStage gaussian_blur gray)))

/-- Shape contract of a numpy `h × w` array. -/
def GoodShape (m : Mask) (h w : Nat) : Prop :=
  m.length = h ∧ ∀ row ∈ m, row.length = w

theorem goodShape_maskH {m : Mask} {h w : Nat} (hg : GoodShape m h w) :
    maskH m = h := hg.1

theorem goodShape_maskW {m : Mask} {h w : Nat} (hg : GoodShape m h w)
    (hh : 0 < h) : maskW m = w := by
  cases m with
  | nil =>
    exfalso
    have := hg.1
    simp at this
    omega
  | cons r t => exact hg.2 r (by simp)

theorem goodShape_mapGrid (m : Mask) (h w : Nat) (f : Nat → Nat → Nat)
    (hg : GoodShape m h w) : GoodShape (mapGrid (maskH m) (maskW m) f) h w := by
  rcases Nat.eq_zero_or_pos h with h0 | hpos
  · subst h0
    have hH : maskH m = 0 := hg.1
    constructor
    · rw [length_mapGrid, hH]
    · intro row hrow
      rw [hH] at hrow
      simp [mapGrid] at hrow
  · constructor
    · rw [length_mapGrid, goodShape_maskH hg]
    · rw [goodShape_maskW hg hpos, goodShape_maskH hg]
      exact mem_mapGrid_length h w f

theorem goodShape_gaussianBlur (k : Nat) (m : Mask) (h w : Nat)
    (hg : GoodShape m h w) : GoodShape (gaussianBlur k m) h w :=
  goodShape_mapGrid m h w _ hg

theorem goodShape_thresholdOtsuInv (m : Mask) (h w : Nat)
    (hg : GoodShape m h w) : GoodShape (thresholdOtsuInv m) h w :=
  goodShape_mapGrid m h w _ hg

theorem goodShape_adaptiveThresholdInv (bs : Nat) (c : Int) (m : Mask)
    (h w : Nat) (hg : GoodShape m h w) :
    GoodShape (adaptiveThresholdInv bs c m) h w :=
  goodShape_mapGrid m h w _ hg

theorem goodShape_dilate (k : Nat) (m : Mask) (h w : Nat)
    (hg : GoodShape m h w) : GoodShape (dilate k m) h w :=
  goodShape_mapGrid m h w _ hg

theorem goodShape_erode (k : Nat) (m : Mask) (h w : Nat)
    (hg : GoodShape m h w) : GoodShape (erode k m) h w :=
  goodShape_mapGrid m h w _ hg

theorem goodShape_segBlurStage (gb : Nat) (m : Mask) (h w : Nat)
    (hg : GoodShape m h w) : GoodShape (segBlurStage gb m) h w := by
  unfold segBlurStage
  split_ifs
  · exact goodShape_gaussianBlur _ m h w hg
  · exact goodShape_gaussianBlur _ m h w hg
  · exact hg

theorem goodShape_segThreshStage (method : String) (ab : Nat) (ac : Int)
    (m : Mask) (h w : Nat) (hg : GoodShape m h w) :
    GoodShape (segThreshStage method ab ac m) h w := by
  unfold segThreshStage
  split_ifs
  · exact goodShape_thresholdOtsuInv m h w hg
  · exact goodShape_adaptiveThresholdInv _ _ m h w hg
  · exact goodShape_thresholdOtsuInv m h w hg

theorem goodShape_segMorphStage (mk : Nat) (m : Mask) (h w : Nat)
    (hg : GoodShape m h w) : GoodShape (segMorphStage mk m) h w := by
  unfold segMorphStage
  split_ifs
  · exact goodShape_dilate _ _ h w
      (goodShape_erode _ _ h w
        (goodShape_erode _ _ h w (goodShape_dilate _ _ h w hg)))
  · exact hg

theorem rows_fill (m : Mask) (hrows : ∀ row ∈ m, row.length = maskW m) :
    ∀ row ∈ fill_internal_holes m, row.length = maskW m := by
  unfold fill_internal_holes
  split_ifs with hdeg
  · intro row hrow
    simp only [binarize, List.mem_map] at hrow
    obtain ⟨r, hr, rfl⟩ := hrow
    rw [List.length_map]
    exact hrows r hr
  · intro row hrow
    rw [mem_mapGrid_length _ _ _ row hrow, maskW_binarize]

theorem goodShape_fill (m : Mask) (h w : Nat) (hg : GoodShape m h w) :
    GoodShape (fill_internal_holes m) h w := by
  constructor
  · rw [length_fill]
    exact hg.1
  · rcases Nat.eq_zero_or_pos h with h0 | hpos
    · subst h0
      have : m = [] := List.length_eq_zero.mp hg.1
      subst this
      intro row hrow
      simp [fill_internal_holes, binarize, maskH] at hrow
    · intro row hrow
      rw [rows_fill m (by rw [goodShape_maskW hg hpos]; exact hg.2) row hrow]
      exact goodShape_maskW hg hpos

theorem binarize_vals (m : Mask) :
    ∀ row ∈ binarize m, ∀ v ∈ row, v = 0 ∨ v = 255 := by
  intro row hrow v hv
  simp only [binarize, List.mem_map] at hrow
  obtain ⟨r, _, rfl⟩ := hrow
  simp only [List.mem_map] at hv
  obtain ⟨u, _, rfl⟩ := hv
  split_ifs <;> simp

theorem fill_vals (m : Mask) :
    ∀ row ∈ fill_internal_holes m, ∀ v ∈ row, v = 0 ∨ v = 255 := by
  unfold fill_internal_holes
  split_ifs with hdeg
  · exact binarize_vals m
  · intro row hrow v hv
    simp only [mapGrid, List.mem_map] at hrow
    obtain ⟨y, _, rfl⟩ := hrow
    simp only [List.mem_map] at hv
    obtain ⟨x, _, rfl⟩ := hv
    split_ifs <;> simp

/-- C3: for every 2D uint8 input and every parameter setting, the
Segmenter's output has exactly the input's shape and every pixel is 0 or
255. -/
theorem segment_cell_shape_and_binary (gray : Mask) (method : String)
    (adapt_block : Nat) (adapt_C : Int) (gaussian_blur morph_kernel : Nat)
    (hrect : ∀ row ∈ gray, row.length = maskW gray) :
    (segment_cell gray method adapt_block adapt_C gaussian_blur morph_kernel).length
        = gray.length
    ∧ (∀ row ∈ segment_cell gray method adapt_block adapt_C gaussian_blur morph_kernel,
        row.length = maskW gray)
    ∧ ∀ row ∈ segment_cell gray method adapt_block adapt_C gaussian_blur morph_kernel,
        ∀ v ∈ row, v = 0 ∨ v = 255 := by
  have hg : GoodShape
      (segment_cell gray method adapt_block adapt_C gaussian_blur morph_kernel)
      gray.length (maskW gray) :=
    goodShape_fill _ _ _
      (goodShape_segMorphStage _ _ _ _
        (goodShape_segThreshStage _ _ _ _ _ _
          (goodShape_segBlurStage _ _ _ _ ⟨rfl, hrect⟩)))
  exact ⟨hg.1, hg.2, fill_vals _⟩

/-- Witness for C3 (adaptive method, blur and morphology disabled, 2×2
input): shape and binarity hold. -/
theorem segment_cell_shape_and_binary_witness :
    ((segment_cell [[0, 10], [200, 3]] "adaptive" 3 10 0 0).length
        = ([[0, 10], [200, 3]] : Mask).length
      ∧ (∀ row ∈ segment_cell [[0, 10], [200, 3]] "adaptive" 3 10 0 0,
          row.length = maskW [[0, 10], [200, 3]])
      ∧ ∀ row ∈ segment_cell [[0, 10], [200, 3]] "adaptive" 3 10 0 0,
          ∀ v ∈ row, v = 0 ∨ v = 255) :=
  segment_cell_shape_and_binary [[0, 10], [200, 3]] "adaptive" 3 10 0 0
    (by decide)

/-! ## Exclusion subtraction — src/indexing_ui.py:2316-2338

For each exclusion, the shape's coordinates are translated by the
alignment shift `(dx,dy)`; a rect is clipped to the unit bounds and the
clipped sub-rectangle zeroed; a circle (when `r > 0`) zeroes every pixel
of the unit within squared distance `r²` of the translated center
(`np.ogrid` boolean-mask indexing). -/

/-- A user exclusion: `{'shape': 'rect', x, y, w, h}` or
`{'shape': 'circle', cx, cy, r}` in unit-local coordinates. -/
inductive Excl where
  | rect (x y w h : Int)
  | circle (cx cy r : Int)

/-- `mask[y0:y1, x0:x1] = 0`. -/
def zeroRectPixels (mask : Mask) (x0 y0 x1 y1 : Int) : Mask :=
  mask.mapIdx fun y row => row.mapIdx fun x v =>
    if y0 ≤ (y : Int) ∧ (y : Int) < y1 ∧ x0 ≤ (x : Int) ∧ (x : Int) < x1
      then 0 else v

/-- `mask[(xx-cx)**2 + (yy-cy)**2 <= r**2] = 0`. -/
def zeroCirclePixels (mask : Mask) (cx cy r : Int) : Mask :=
  mask.mapIdx fun y row => row.mapIdx fun x v =>
    if ((x : Int) - cx) ^ 2 + ((y : Int) - cy) ^ 2 ≤ r ^ 2 then 0 else v

/-- One iteration of the exclusion loop on a unit crop of width `w` and
height `h`, applying the shift `(dx,dy)`. -/
def applyExclusion (mask : Mask) (w h : Nat) (e : Excl) (dx dy : Int) : Mask :=
  match e with
  | .rect x y rw rh =>
    if max 0 (x + dx) < min (w : Int) (x + dx + rw)
        ∧ max 0 (y + dy) < min (h : Int) (y + dy + rh) then
      zeroRectPixels mask (max 0 (x + dx)) (max 0 (y + dy))
        (min (w : Int) (x + dx + rw)) (min (h : Int) (y + dy + rh))
    else mask
  | .circle cx cy r =>
    if 0 < r then zeroCirclePixels mask (cx + dx) (cy + dy) r else mask

theorem getElem?_mapIdx (l : List α) (f : Nat → α → β) (i : Nat) :
    (l.mapIdx f)[i]? = (l[i]?).map (f i) := by
  rw [List.mapIdx_eq_enum_map, List.getElem?_map, List.getElem?_enum]
  cases l[i]? <;> rfl

theorem pix_mapIdx2 (mask : Mask) (g : Nat → Nat → Nat → Nat) (y x : Nat)
    (hy : y < mask.length) (hx : x < (mask.getD y []).length) :
    pix (mask.mapIdx fun yy row => row.mapIdx fun xx v => g yy xx v) y x
      = g y x (pix mask y x) := by
  have hrow : mask.getD y [] = mask[y] := List.getD_eq_getElem mask [] hy
  have hy2 : y < (mask.mapIdx fun yy row => row.mapIdx fun xx v => g yy xx v).length := by
    rw [List.length_mapIdx]
    exact hy
  have hEq1 : (mask.mapIdx fun yy row => row.mapIdx fun xx v => g yy xx v).getD y []
      = (mask[y]).mapIdx fun xx v => g y xx v := by
    rw [List.getD_eq_getElem _ [] hy2]
    have h := getElem?_mapIdx mask (fun yy row => row.mapIdx fun xx v => g yy xx v) y
    rw [List.getElem?_eq_getElem hy2, List.getElem?_eq_getElem hy] at h
    exact Option.some.inj h
  have hx2 : x < mask[y].length := by
    rw [← hrow]
    exact hx
  have hx3 : x < ((mask[y]).mapIdx fun xx v => g y xx v).length := by
    rw [List.length_mapIdx]
    exact hx2
  have hEq2 : ((mask[y]).mapIdx fun xx v => g y xx v).getD x 0 = g y x (mask[y][x]) := by
    rw [List.getD_eq_getElem _ 0 hx3]
    have h := getElem?_mapIdx mask[y] (fun xx v => g y xx v) x
    rw [List.getElem?_eq_getElem hx3, List.getElem?_eq_getElem hx2] at h
    exact Option.some.inj h
  unfold pix
  rw [hEq1, hEq2, hrow, List.getD_eq_getElem mask[y] 0 hx2]

/-- C5: an exclusion is translated by `(dx,dy)` then clipped to the unit
bounds before zeroing; a rect zeroes exactly the clipped translated
sub-rectangle, and a circle zeroes exactly the pixels within squared
distance `r²` of the translated center (boundary inclusive). -/
theorem applyExclusion_pixels (mask : Mask) (w h : Nat)
    (x y rw rh cx cy r dx dy : Int) (py px : Nat)
    (hy : py < mask.length) (hx : px < (mask.getD py []).length) (hr : 0 < r) :
    (pix (applyExclusion mask w h (.rect x y rw rh) dx dy) py px
      = if max 0 (x + dx) ≤ (px : Int) ∧ (px : Int) < min (w : Int) (x + dx + rw)
            ∧ max 0 (y + dy) ≤ (py : Int) ∧ (py : Int) < min (h : Int) (y + dy + rh)
          then 0 else pix mask py px)
    ∧ (pix (applyExclusion mask w h (.circle cx cy r) dx dy) py px
      = if ((px : Int) - (cx + dx)) ^ 2 + ((py : Int) - (cy + dy)) ^ 2 ≤ r ^ 2
          then 0 else pix mask py px) := by
  constructor
  · show pix (if _ then zeroRectPixels mask _ _ _ _ else mask) py px = _
    split_ifs with hguard hpt hpt
    · unfold zeroRectPixels
      rw [pix_mapIdx2 mask _ py px hy hx, if_pos (by tauto)]
    · unfold zeroRectPixels
      rw [pix_mapIdx2 mask _ py px hy hx, if_neg (by tauto)]
    · exact absurd ⟨by omega, by omega⟩ hguard
    · rfl
  · show pix (if _ then zeroCirclePixels mask _ _ _ else mask) py px = _
    rw [if_pos hr]
    unfold zeroCirclePixels
    rw [pix_mapIdx2 mask _ py px hy hx]

/-- Witness for C5, Scenario D: rect `{x:0,y:0,w:10,h:10}` with shift
`(3,-2)` on a 14×14 unit zeroes pixel (y=0, x=3) of an all-255 mask, and a
circle of radius 2 at (5,5) zeroes pixel (5,7) on its boundary. -/
theorem applyExclusion_pixels_witness :
    0 < (2 : Int)
    ∧ (pix (applyExclusion (List.replicate 14 (List.replicate 14 255)) 14 14
          (.rect 0 0 10 10) 3 (-2)) 0 3
        = if max 0 ((0 : Int) + 3) ≤ ((3 : Nat) : Int)
              ∧ ((3 : Nat) : Int) < min ((14 : Nat) : Int) ((0 : Int) + 3 + 10)
              ∧ max 0 ((0 : Int) + (-2)) ≤ ((0 : Nat) : Int)
              ∧ ((0 : Nat) : Int) < min ((14 : Nat) : Int) ((0 : Int) + (-2) + 10)
            then 0 else pix (List.replicate 14 (List.replicate 14 255)) 0 3)
    ∧ (pix (applyExclusion (List.replicate 14 (List.replicate 14 255)) 14 14
          (.circle 5 5 2) 0 0) 5 7
        = if (((7 : Nat) : Int) - (5 + 0)) ^ 2 + (((5 : Nat) : Int) - (5 + 0)) ^ 2
              ≤ (2 : Int) ^ 2
            then 0 else pix (List.replicate 14 (List.replicate 14 255)) 5 7) := by
  have h1 := applyExclusion_pixels (List.replicate 14 (List.replicate 14 255))
    14 14 0 0 10 10 5 5 2 3 (-2) 0 3 (by decide) (by decide) (by decide)
  have h2 := applyExclusion_pixels (List.replicate 14 (List.replicate 14 255))
    14 14 0 0 10 10 5 5 2 0 0 5 7 (by decide) (by decide) (by decide)
  exact ⟨by decide, h1.1, h2.2⟩

/-! ## Exclusion clamping — `MainWindow._clamp_exclusion_to_base_unit`
(src/indexing_ui.py:1922-1946) -/

/-- `max(0, min(v, max(0, bound - 1)))`: clamp a coordinate into the unit. -/
def clampCoord (bound v : Int) : Int := max 0 (min v (max 0 (bound - 1)))

/-- `max(1, min(e, max(1, bound - c)))`: clamp a rect extent. -/
def clampExtent (bound c e : Int) : Int := max 1 (min e (max 1 (bound - c)))

/-- Rect branch of `_clamp_exclusion_to_base_unit`. -/
def clampRect (bw bh x y w h : Int) : Int × Int × Int × Int :=
  (clampCoord bw x, clampCoord bh y,
   clampExtent bw (clampCoord bw x) w,
   clampExtent bh (clampCoord bh y) h)

/-- Circle branch of `_clamp_exclusion_to_base_unit`:
`r = max(1, r)` then `r = min(r, max(1,cx), max(1,cy), max(1,bw-cx-1), max(1,bh-cy-1))`. -/
def clampCircle (bw bh cx cy r : Int) : Int × Int × Int :=
  (clampCoord bw cx, clampCoord bh cy,
   min (min (min (min (max 1 r) (max 1 (clampCoord bw cx)))
         (max 1 (clampCoord bh cy)))
       (max 1 (bw - clampCoord bw cx - 1)))
     (max 1 (bh - clampCoord bh cy - 1)))

/-- The claim's notion of a disc staying inside the `bw × bh` unit: every
pixel within squared distance `r²` of the center has coordinates inside
`[0,bw) × [0,bh)`. -/
def discInUnit (bw bh cx cy r : Int) : Prop :=
  ∀ px py : Int, (px - cx) ^ 2 + (py - cy) ^ 2 ≤ r ^ 2 →
    0 ≤ px ∧ px < bw ∧ 0 ≤ py ∧ py < bh

/-- C7 counterexample: clamping circle `{cx:0, cy:5, r:3}` to a 10×10 base
unit yields center (0,5) with radius forced to 1; pixel (-1,5) is within
the disc but outside the unit, so the clamped geometry does NOT lie
entirely within `[0,w)×[0,h)`. -/
theorem clampCircle_escapes_unit :
    clampCircle 10 10 0 5 3 = (0, 5, 1)
    ∧ ¬ discInUnit 10 10 (clampCircle 10 10 0 5 3).1
        (clampCircle 10 10 0 5 3).2.1 (clampCircle 10 10 0 5 3).2.2 := by
  refine ⟨by decide, fun hd => ?_⟩
  have h := hd (-1) 5 (by decide)
  exact absurd h.1 (by decide)

/-- C7 amended: the clamped rect always lies within the unit bounds
(for unit dimensions ≥ 1); the clamped circle's disc lies within the unit
bounds provided the clamped center is at least one pixel from every
border — when the center lands on a border, the radius is still forced to
at least 1 and the disc escapes, as the counterexample shows. -/
theorem clamp_exclusion_bounds :
    (∀ bw bh x y w h : Int, 1 ≤ bw → 1 ≤ bh →
      0 ≤ (clampRect bw bh x y w h).1
      ∧ 0 ≤ (clampRect bw bh x y w h).2.1
      ∧ (clampRect bw bh x y w h).1 + (clampRect bw bh x y w h).2.2.1 ≤ bw
      ∧ (clampRect bw bh x y w h).2.1 + (clampRect bw bh x y w h).2.2.2 ≤ bh)
    ∧ (∀ bw bh cx cy r : Int,
        1 ≤ (clampCircle bw bh cx cy r).1 →
        (clampCircle bw bh cx cy r).1 + 1 < bw →
        1 ≤ (clampCircle bw bh cx cy r).2.1 →
        (clampCircle bw bh cx cy r).2.1 + 1 < bh →
        discInUnit bw bh (clampCircle bw bh cx cy r).1
          (clampCircle bw bh cx cy r).2.1 (clampCircle bw bh cx cy r).2.2) := by
  constructor
  · intro bw bh x y w h hbw hbh
    simp only [clampRect, clampExtent, clampCoord]
    refine ⟨?_, ?_, ?_, ?_⟩ <;> omega
  · intro bw bh cx cy r h1 h2 h3 h4
    simp only [clampCircle] at h1 h2 h3 h4 ⊢
    intro px py hdisc
    set c1 := clampCoord bw cx with hc1
    set c2 := clampCoord bh cy with hc2
    set rr := min (min (min (min (max 1 r) (max 1 c1)) (max 1 c2))
      (max 1 (bw - c1 - 1))) (max 1 (bh - c2 - 1)) with hrr
    have hr1 : 1 ≤ rr := by
      rw [hrr]
      simp only [le_min_iff]
      omega
    have hrc1 : rr ≤ c1 := by
      rw [hrr]
      have : max 1 c1 = c1 := by omega
      omega
    have hrc2 : rr ≤ c2 := by
      rw [hrr]
      have : max 1 c2 = c2 := by omega
      omega
    have hrb1 : rr ≤ bw - c1 - 1 := by
      rw [hrr]
      have : max 1 (bw - c1 - 1) = bw - c1 - 1 := by omega
      omega
    have hrb2 : rr ≤ bh - c2 - 1 := by
      rw [hrr]
      have : max 1 (bh - c2 - 1) = bh - c2 - 1 := by omega
      omega
    have hx2 : (px - c1) ^ 2 ≤ rr ^ 2 := by nlinarith [sq_nonneg (py - c2)]
    have hy2 : (py - c2) ^ 2 ≤ rr ^ 2 := by nlinarith [sq_nonneg (px - c1)]
    have hax := abs_le_of_sq_le_sq' hx2 (by omega)
    have hay := abs_le_of_sq_le_sq' hy2 (by omega)
    exact ⟨by omega, by omega, by omega, by omega⟩

/-- Witness for the amended C7: a 10×10 unit, rect `{x:-5,y:3,w:100,h:2}`
is clamped inside the unit, and circle `{cx:4,cy:6,r:9}` is clamped to a
disc that stays inside the unit. -/
theorem clamp_exclusion_bounds_witness :
    (0 ≤ (clampRect 10 10 (-5) 3 100 2).1
      ∧ 0 ≤ (clampRect 10 10 (-5) 3 100 2).2.1
      ∧ (clampRect 10 10 (-5) 3 100 2).1 + (clampRect 10 10 (-5) 3 100 2).2.2.1 ≤ 10
      ∧ (clampRect 10 10 (-5) 3 100 2).2.1 + (clampRect 10 10 (-5) 3 100 2).2.2.2 ≤ 10)
    ∧ discInUnit 10 10 (clampCircle 10 10 4 6 9).1 (clampCircle 10 10 4 6 9).2.1
        (clampCircle 10 10 4 6 9).2.2 :=
  ⟨clamp_exclusion_bounds.1 10 10 (-5) 3 100 2 (by decide) (by decide),
   clamp_exclusion_bounds.2 10 10 4 6 9 (by decide) (by decide) (by decide) (by decide)⟩

/-! ## Defect-detector area filter — src/indexing_ui.py:1540-1560

```
max_area = max(min_area, int(seg_area * 0.98))
for c in cnts:
    a = cv2.contourArea(c)
    if a >= min_area and a <= max_area: ... keep ...
```
Contour areas are half-integer floats (`cv2.contourArea`), modelled
exactly in ℚ; `int(seg_area * 0.98)` is the truncation `seg_area*98/100`. -/

/-- The contours surviving the detector's connected-component area filter. -/
def defect_area_filter (areas : List ℚ) (seg_area min_area : Nat) : List ℚ :=
  areas.filter fun a =>
    decide ((min_area : ℚ) ≤ a
      ∧ a ≤ ((max min_area (seg_area * 98 / 100) : Nat) : ℚ))

/-- C8 counterexample: a single contour of area 150 with seg_area 100
(cap `int(0.98*100) = 98`): with `min_area = 120` zero contours survive,
but raising `min_area` to 150 makes the contour survive
(`max_area = max(min_area, 98)` grows with `min_area`), so increasing
`min_area` increased the number of surviving contours. -/
theorem defect_area_filter_not_monotone :
    (120 : Nat) ≤ 150
    ∧ (defect_area_filter [150] 100 120).length = 0
    ∧ (defect_area_filter [150] 100 150).length = 1 := by
  refine ⟨by decide, by decide, by decide⟩

/-- C8 amended: increasing `min_area` never increases the number of
surviving contours, provided the increased `min_area` still does not
exceed the ROI cap `int(0.98*roi_area)`; beyond that cap the upper bound
`max(min_area, cap)` moves with `min_area` and a contour whose area equals
the new `min_area` exactly can newly survive. -/
theorem defect_area_filter_monotone (areas : List ℚ) (seg_area m1 m2 : Nat)
    (h12 : m1 ≤ m2) (hcap : m2 ≤ seg_area * 98 / 100) :
    (defect_area_filter areas seg_area m2).length
      ≤ (defect_area_filter areas seg_area m1).length := by
  apply List.Sublist.length_le
  apply List.monotone_filter_right
  intro a ha
  simp only [decide_eq_true_eq] at ha ⊢
  have hmax1 : max m1 (seg_area * 98 / 100) = seg_area * 98 / 100 := by omega
  have hmax2 : max m2 (seg_area * 98 / 100) = seg_area * 98 / 100 := by omega
  rw [hmax2] at ha
  rw [hmax1]
  constructor
  · calc ((m1 : Nat) : ℚ) ≤ ((m2 : Nat) : ℚ) := by exact_mod_cast h12
      _ ≤ a := ha.1
  · exact ha.2

/-- Witness for the amended C8: areas [5, 30, 99] with seg_area 100,
min_area raised 10 → 30 (both at most the cap 98). -/
theorem defect_area_filter_monotone_witness :
    (defect_area_filter [5, 30, 99] 100 30).length
      ≤ (defect_area_filter [5, 30, 99] 100 10).length :=
  defect_area_filter_monotone [5, 30, 99] 100 10 30 (by decide) (by decide)

/-! ## Exclusion alignment — `_largest_component_centroid` and the shift
computation of `run_segmentation_all` (src/indexing_ui.py:2235-2314)

`cv2.connectedComponentsWithStats(src, connectivity=8)` is modelled as:
8-connected closure within the foreground pixel set (fuel-bounded, as for
flood fill), with components enumerated in raster order of their first
pixel; `np.argmax(areas)` takes the first largest. -/

/-- 8-connectivity between distinct pixels. -/
def adj8 (p q : Nat × Nat) : Prop :=
  p ≠ q ∧ p.1 ≤ q.1 + 1 ∧ q.1 ≤ p.1 + 1 ∧ p.2 ≤ q.2 + 1 ∧ q.2 ≤ p.2 + 1

instance (p q : Nat × Nat) : Decidable (adj8 p q) := by
  unfold adj8
  infer_instance

/-- Foreground pixels (`value > 0`) of the `h × w` raster. -/
def fgSet (b : Mask) (h w : Nat) : Finset (Nat × Nat) :=
  (Finset.range h ×ˢ Finset.range w).filter fun p => 0 < pix b p.1 p.2

/-- One growth step of an 8-connected component. -/
def compStep (b : Mask) (h w : Nat) (s : Finset (Nat × Nat)) : Finset (Nat × Nat) :=
  s ∪ (fgSet b h w).filter fun q => ∃ p ∈ s, adj8 p q

/-- The 8-connected component of a seed pixel. -/
def component (b : Mask) (h w : Nat) (p : Nat × Nat) : Finset (Nat × Nat) :=
  (compStep b h w)^[h * w] {p}

/-- Pixels of the raster in row-major scan order. -/
def rasterPixels (h w : Nat) : List (Nat × Nat) :=
  (List.range h).flatMap fun y => (List.range w).map fun x => (y, x)

/-- Foreground components in label order (raster order of first pixel),
as produced by `cv2.connectedComponentsWithStats` after the background
label 0. -/
def componentsList (b : Mask) (h w : Nat) : List (Finset (Nat × Nat)) :=
  (rasterPixels h w).foldl
    (fun acc p =>
      if 0 < pix b p.1 p.2 ∧ ∀ c ∈ acc, p ∉ c
        then acc ++ [component b h w p] else acc)
    []

/-- `np.argmax(areas)` over component areas: the first component of
maximal cardinality. -/
def largestComponent (cs : List (Finset (Nat × Nat))) : Finset (Nat × Nat) :=
  cs.foldl (fun best c => if best.card < c.card then c else best) ∅

/-- Mean x / mean y of a component's pixels (floats modelled exactly
in ℚ). -/
def centroidOf (c : Finset (Nat × Nat)) : ℚ × ℚ :=
  (Finset.sum c (fun p => (p.2 : ℚ)) / c.card,
   Finset.sum c (fun p => (p.1 : ℚ)) / c.card)

/-- `_largest_component_centroid(bin_mask)`: `None` for an empty array or
when no foreground component exists, else the centroid of the largest
8-connected component. -/
def largest_component_centroid (b : Mask) : Option (ℚ × ℚ) :=
  if maskH b * maskW b = 0 then none
  else
    match componentsList b (maskH b) (maskW b) with
    | [] => none
    | c :: rest => some (centroidOf (largestComponent (c :: rest)))

/-- Reference-centroid lookup: the persisted in-memory map entry is
preferred; otherwise the centroid of the cached reference mask, when a
cache entry exists. -/
def refCentroidLookup (refCentroid : Option (ℚ × ℚ))
    (refCacheMask : Option Mask) : Option (ℚ × ℚ) :=
  match refCentroid with
  | some rc => some rc
  | none =>
    match refCacheMask with
    | some rb => largest_component_centroid rb
    | none => none

/-- The per-unit alignment shift of `run_segmentation_all`
(src/indexing_ui.py:2292-2314): zero on the reference image; otherwise
`(round(cx1-cx0), round(cy1-cy0))` when both the current centroid and a
reference centroid exist, else `(0, 0)`.  (Python's `round` differs from
`round` here only on exact .5 ties, which none of the verified
properties touch.) -/
def computeShift (is_reference : Bool) (refCentroid : Option (ℚ × ℚ))
    (refCacheMask : Option Mask) (pre_excl_bin : Mask) : Int × Int :=
  if is_reference then (0, 0)
  else
    match refCentroidLookup refCentroid refCacheMask,
          largest_component_centroid pre_excl_bin with
    | some c0, some c1 => (round (c1.1 - c0.1), round (c1.2 - c0.2))
    | _, _ => (0, 0)

theorem pix_eq_zero_of_all_zero (m : Mask)
    (hz : ∀ row ∈ m, ∀ v ∈ row, v = 0) (y x : Nat) : pix m y x = 0 := by
  unfold pix
  rcases Nat.lt_or_ge y m.length with hy | hy
  · rw [List.getD_eq_getElem m [] hy]
    rcases Nat.lt_or_ge x m[y].length with hx | hx
    · rw [List.getD_eq_getElem _ 0 hx]
      exact hz _ (List.getElem_mem hy) _ (List.getElem_mem hx)
    · exact List.getD_eq_default _ _ hx
  · rw [List.getD_eq_default _ _ hy]
    rfl

theorem componentsList_of_no_fg (b : Mask) (h w : Nat)
    (hz : ∀ y x, pix b y x = 0) : componentsList b h w = [] := by
  unfold componentsList
  generalize rasterPixels h w = l
  induction l with
  | nil => rfl
  | cons p t ih =>
    rw [List.foldl_cons, if_neg (by rw [hz p.1 p.2]; simp)]
    exact ih

theorem centroid_none_of_all_zero (m : Mask)
    (hz : ∀ row ∈ m, ∀ v ∈ row, v = 0) :
    largest_component_centroid m = none := by
  unfold largest_component_centroid
  split_ifs with hsz
  · rfl
  · rw [componentsList_of_no_fg m _ _ (pix_eq_zero_of_all_zero m hz)]

/-- C6: on a non-reference image, a unit with no reference centroid
(absent from the in-memory map AND not derivable from the cached
reference mask) or whose current mask has no foreground pixel gets the
shift exactly (0,0); the computation is total, so exclusions are applied
at their nominal position. -/
theorem computeShift_fallback_zero (refCentroid : Option (ℚ × ℚ))
    (refCacheMask : Option Mask) (cur : Mask)
    (hno : (refCentroid = none
        ∧ ∀ rb, refCacheMask = some rb → largest_component_centroid rb = none)
      ∨ (∀ row ∈ cur, ∀ v ∈ row, v = 0)) :
    computeShift false refCentroid refCacheMask cur = (0, 0) := by
  unfold computeShift
  rcases hno with ⟨hrc, hcache⟩ | hzero
  · subst hrc
    have hlk : refCentroidLookup none refCacheMask = none := by
      cases hm : refCacheMask with
      | none => rfl
      | some rb =>
        unfold refCentroidLookup
        exact hcache rb hm
    rw [hlk]
    cases largest_component_centroid cur <;> rfl
  · rw [centroid_none_of_all_zero cur hzero]
    cases refCentroidLookup refCentroid refCacheMask <;> rfl

/-- Witness for C6: no reference centroid anywhere — shift is (0,0) even
though the current mask has foreground. -/
theorem computeShift_fallback_zero_witness :
    computeShift false none none [[255]] = (0, 0) :=
  computeShift_fallback_zero none none [[255]]
    (Or.inl ⟨rfl, fun rb h => by cases h⟩)

/-! ## mask_stats — src/segmentation.py:103-111 -/

/-- `np.where(mask > 0)` coordinates `(y, x)` in row-major order. -/
def fgList (m : Mask) : List (Nat × Nat) :=
  m.enum.flatMap fun yr =>
    yr.2.enum.filterMap fun xv => if 0 < xv.2 then some (yr.1, xv.1) else none

/-- `mask_stats(mask)`: `(area, centroid_x, centroid_y)`; area is the
foreground pixel count, centroid the mean x / mean y of the foreground,
and `(0, (0, 0))` when no pixel is positive. -/
def mask_stats (m : Mask) : Nat × ℚ × ℚ :=
  if fgList m = [] then (0, 0, 0)
  else ((fgList m).length,
        ((fgList m).map fun p => (p.2 : ℚ)).sum / (fgList m).length,
        ((fgList m).map fun p => (p.1 : ℚ)).sum / (fgList m).length)

theorem fgList_nil_of_all_zero (m : Mask)
    (hz : ∀ row ∈ m, ∀ v ∈ row, v = 0) : fgList m = [] := by
  rw [List.eq_nil_iff_forall_not_mem]
  intro p hp
  unfold fgList at hp
  rw [List.mem_flatMap] at hp
  obtain ⟨yr, hyr, hp⟩ := hp
  rw [List.mem_filterMap] at hp
  obtain ⟨xv, hxv, hif⟩ := hp
  have hrow : yr.2 ∈ m := by
    have h := List.mem_enum_iff_getElem?.mp hyr
    exact List.getElem?_mem h
  have hval : xv.2 ∈ yr.2 := by
    have h := List.mem_enum_iff_getElem?.mp hxv
    exact List.getElem?_mem h
  have h0 : xv.2 = 0 := hz yr.2 hrow xv.2 hval
  rw [h0] at hif
  simp at hif

/-- C10: an all-zero mask yields area 0 and centroid (0,0); a mask whose
only foreground pixel is the top-left corner (0,0) yields area 1 and the
SAME centroid (0,0) — hence an empty mask is distinguishable from such a
non-empty one only by the area field, never by the centroid. -/
theorem mask_stats_empty_vs_corner :
    (∀ m : Mask, (∀ row ∈ m, ∀ v ∈ row, v = 0) → mask_stats m = (0, 0, 0))
    ∧ (∀ m : Mask, fgList m = [(0, 0)] → mask_stats m = (1, 0, 0))
    ∧ ∀ m ms : Mask, (∀ row ∈ m, ∀ v ∈ row, v = 0) → fgList ms = [(0, 0)] →
        (mask_stats m).2 = (mask_stats ms).2 ∧ (mask_stats m).1 ≠ (mask_stats ms).1 := by
  have hempty : ∀ m : Mask, (∀ row ∈ m, ∀ v ∈ row, v = 0) →
      mask_stats m = (0, 0, 0) := by
    intro m hz
    unfold mask_stats
    rw [if_pos (fgList_nil_of_all_zero m hz)]
  have hcorner : ∀ m : Mask, fgList m = [(0, 0)] → mask_stats m = (1, 0, 0) := by
    intro m hfg
    unfold mask_stats
    rw [hfg]
    norm_num
  refine ⟨hempty, hcorner, fun m ms hz hfg => ?_⟩
  rw [hempty m hz, hcorner ms hfg]
  exact ⟨rfl, by norm_num⟩

/-- Witness for C10: the all-zero 2×2 mask versus the 2×2 mask with a
single 255 at the top-left corner. -/
theorem mask_stats_empty_vs_corner_witness :
    mask_stats [[0, 0], [0, 0]] = (0, 0, 0)
    ∧ mask_stats [[255, 0], [0, 0]] = (1, 0, 0)
    ∧ (mask_stats [[0, 0], [0, 0]]).2 = (mask_stats [[255, 0], [0, 0]]).2
    ∧ (mask_stats [[0, 0], [0, 0]]).1 ≠ (mask_stats [[255, 0], [0, 0]]).1 := by
  have h1 := mask_stats_empty_vs_corner.1 [[0, 0], [0, 0]] (by decide)
  have h2 := mask_stats_empty_vs_corner.2.1 [[255, 0], [0, 0]] (by decide)
  have h3 := mask_stats_empty_vs_corner.2.2 [[0, 0], [0, 0]] [[255, 0], [0, 0]]
    (by decide) (by decide)
  exact ⟨h1, h2, h3.1, h3.2⟩

/-! ## run_inspection — src/indexing_ui.py:1669-1709

The per-unit verdict loop is embedded over an abstract detector function
(the claim quantifies over whatever `_detect_defects_on_pix` produces for
a crop/mask pair).  `results` is a Python dict keyed by the unit index,
modelled as an insertion-ordered association list. -/

/-- One thumbnail row: unit index (`int(item.text())`), optional crop
pixmap, optional segmentation mask. -/
structure ThumbItem where
  idx : Nat
  crop : Option Mask
  seg : Option Mask

/-- Python dict assignment `results[k] = v` (update in place if the key
exists, else append). -/
def dictInsert (res : List (Nat × Bool)) (k : Nat) (v : Bool) :
    List (Nat × Bool) :=
  if res.any fun e => e.1 == k
    then res.map fun e => if e.1 == k then (k, v) else e
  else res ++ [(k, v)]

/-- Pixel area of a defect mask, as computed through `mask_stats`. -/
def maskArea (dm : Mask) : Nat := (fgList dm).length

/-- The verdict loop of `run_inspection`: units lacking crop or mask are
skipped; otherwise NG iff the detector produced a mask of area at least
`min_area`, OK when the detector returned nothing. -/
def run_inspection (detect : Mask → Mask → Option Mask)
    (items : List ThumbItem) (min_area : Nat) : List (Nat × Bool) :=
  items.foldl
    (fun res it =>
      match it.crop, it.seg with
      | some p, some s =>
        match detect p s with
        | none => dictInsert res it.idx false
        | some dm => dictInsert res it.idx (decide (min_area ≤ maskArea dm))
      | _, _ => res)
    []

/-- The claim's verdict rule for one unit: `None` (omitted) without crop
or mask; `False` (OK) when no defect mask is produced; NG exactly when
the defect mask's pixel area reaches `min_area`. -/
def inspection_rule (detect : Mask → Mask → Option Mask) (min_area : Nat)
    (it : ThumbItem) : Option (Nat × Bool) :=
  match it.crop, it.seg with
  | some p, some s =>
    match detect p s with
    | none => some (it.idx, false)
    | some dm => some (it.idx, decide (min_area ≤ maskArea dm))
  | _, _ => none

theorem dictInsert_of_fresh (res : List (Nat × Bool)) (k : Nat) (v : Bool)
    (hk : ∀ e ∈ res, e.1 ≠ k) : dictInsert res k v = res ++ [(k, v)] := by
  unfold dictInsert
  rw [if_neg]
  simp only [List.any_eq_true, beq_iff_eq, not_exists]
  intro e h
  exact hk e h.1 h.2

theorem run_inspection_aux (detect : Mask → Mask → Option Mask) (min_area : Nat) :
    ∀ (items : List ThumbItem) (res : List (Nat × Bool)),
      (∀ it ∈ items, ∀ e ∈ res, e.1 ≠ it.idx) →
      (items.map ThumbItem.idx).Nodup →
      items.foldl
          (fun res it =>
            match it.crop, it.seg with
            | some p, some s =>
              match detect p s with
              | none => dictInsert res it.idx false
              | some dm => dictInsert res it.idx (decide (min_area ≤ maskArea dm))
            | _, _ => res)
          res
        = res ++ items.filterMap (inspection_rule detect min_area) := by
  intro items
  induction items with
  | nil =>
    intro res _ _
    simp
  | cons it t ih =>
    intro res hfresh hnodup
    rw [List.foldl_cons, List.filterMap_cons]
    have hfresh_it : ∀ e ∈ res, e.1 ≠ it.idx := hfresh it (by simp)
    have hnodup_t : (t.map ThumbItem.idx).Nodup := by
      rw [List.map_cons, List.nodup_cons] at hnodup
      exact hnodup.2
    have hhead : it.idx ∉ t.map ThumbItem.idx := by
      rw [List.map_cons, List.nodup_cons] at hnodup
      exact hnodup.1
    obtain ⟨idx, crop, seg⟩ := it
    cases crop with
    | none =>
      rw [ih res (fun a ha e he => hfresh a (by simp [ha]) e he) hnodup_t]
      rfl
    | some p =>
      cases seg with
      | none =>
        rw [ih res (fun a ha e he => hfresh a (by simp [ha]) e he) hnodup_t]
        rfl
      | some s =>
        have hstep : ∀ v : Bool,
            ∀ a ∈ t, ∀ e ∈ res ++ [(idx, v)], e.1 ≠ a.idx := by
          intro v a ha e he
          rcases List.mem_append.mp he with he | he
          · exact hfresh a (by simp [ha]) e he
          · have : e = (idx, v) := by simpa using he
            subst this
            intro hcontra
            exact hhead (by
              rw [List.mem_map]
              exact ⟨a, ha, hcontra.symm⟩)
        dsimp only
        cases hdet : detect p s with
        | none =>
          dsimp only
          rw [dictInsert_of_fresh res idx false hfresh_it,
            ih (res ++ [(idx, false)]) (hstep false) hnodup_t,
            List.append_assoc]
          have hrule : inspection_rule detect min_area ⟨idx, some p, some s⟩
              = some (idx, false) := by
            unfold inspection_rule
            dsimp only
            rw [hdet]
          rw [hrule]
          rfl
        | some dm =>
          dsimp only
          rw [dictInsert_of_fresh res idx _ hfresh_it,
            ih (res ++ [(idx, decide (min_area ≤ maskArea dm))])
              (hstep (decide (min_area ≤ maskArea dm))) hnodup_t,
            List.append_assoc]
          have hrule : inspection_rule detect min_area ⟨idx, some p, some s⟩
              = some (idx, decide (min_area ≤ maskArea dm)) := by
            unfold inspection_rule
            dsimp only
            rw [hdet]
          rw [hrule]
          rfl

/-- C9: when the units have pairwise distinct indices, the inspection
result maps exactly the units having both a crop and a segmentation mask,
marking a unit NG iff the detector produced a defect mask of pixel area
at least `min_area` (absent mask ⇒ OK); units lacking crop or mask are
omitted entirely. -/
theorem run_inspection_verdicts (detect : Mask → Mask → Option Mask)
    (items : List ThumbItem) (min_area : Nat)
    (hnodup : (items.map ThumbItem.idx).Nodup) :
    run_inspection detect items min_area
      = items.filterMap (inspection_rule detect min_area) := by
  unfold run_inspection
  rw [run_inspection_aux detect min_area items [] (by simp) hnodup]
  rfl

/-- Witness for C9: three units — detected defect (NG at min_area 1), no
crop (omitted), detector finds nothing (OK). -/
theorem run_inspection_verdicts_witness :
    run_inspection (fun _ s => if maskArea s = 0 then none else some s)
        [⟨0, some [[5]], some [[255]]⟩, ⟨1, none, some [[255]]⟩,
         ⟨2, some [[5]], some [[0]]⟩] 1
      = List.filterMap
          (inspection_rule (fun _ s => if maskArea s = 0 then none else some s) 1)
          [⟨0, some [[5]], some [[255]]⟩, ⟨1, none, some [[255]]⟩,
           ⟨2, some [[5]], some [[0]]⟩] :=
  run_inspection_verdicts _ _ 1 (by decide)

end VisionInspect
